import Mathlib

/-!
Verification of the Cloud29 Discovery Chat relay backend.

The repository holds two near-duplicate variants of one Edge handler:
`src/api/chat.ts` (variant A below) and `src/unnamed/part_000` (variant B).
Both accept a POST with a message history, answer a few FAQ intents from a
canned table, and otherwise relay the upstream completion API's SSE stream,
substituting the literal token `[DATE_PLUS_7]` in each delta with a
precomputed date string.

Modelling conventions:
- text is `List Char` (`chars` injects string literals);
- an outbound "frame" is the exact `List Char` passed to one
  `writer.write` call, i.e. a full `data: <payload>\n\n` unit;
- the resolved date (`computeDatePlus7London`, an `Intl` call on the
  current clock) is an opaque parameter `dv` of the relay;
- `JSON.parse` / `JSON.stringify` are embedded as a fuel-based JSON
  parser and a serializer over an inductive `Json` type (numbers are
  carried as their raw lexemes; `\uXXXX` escapes denoting lone
  surrogates are rejected since `Char` cannot represent them);
- all recursions are structural or fueled so every definition reduces
  in the kernel and can be evaluated on concrete inputs.
-/

set_option maxHeartbeats 1000000
set_option maxRecDepth 4096

namespace Cloud29

/-- Characters of a string literal, the carrier for all modelled text. -/
def chars (s : String) : List Char := s.data

/-- Whitespace recognized by `JSON.parse` between tokens (RFC 8259). -/
def isJsonWs (c : Char) : Bool :=
  c = ' ' || c = '\t' || c = '\n' || c = '\r'

/-- Whitespace removed by JavaScript `String.prototype.trim` (ASCII part,
plus NBSP and BOM; other Unicode space characters do not occur in the
modelled data). -/
def isTrimWs (c : Char) : Bool :=
  c = ' ' || c = '\t' || c = '\n' || c = '\r' || c = '\x0b' || c = '\x0c' ||
  c = '\u00A0' || c = '\uFEFF'

/-- Embedding of JavaScript `s.trim()`. -/
def jsTrim (l : List Char) : List Char :=
  ((l.dropWhile isTrimWs).reverse.dropWhile isTrimWs).reverse

/-- Embedding of the handler's line framing: `buffer.split("\n")` followed by
`buffer = lines.pop() || ""`. Returns the complete lines (everything before
each newline, in order) and the trailing fragment kept for the next chunk. -/
def lineSplit : List Char → List (List Char) × List Char
  | [] => ([], [])
  | c :: rest =>
    let p := lineSplit rest
    if c = '\n' then ([] :: p.1, p.2)
    else
      match p.1 with
      | [] => ([], c :: p.2)
      | l :: ls => ((c :: l) :: ls, p.2)

/-- Embedding of JavaScript `haystack.includes(needle)`. -/
def hasSubstr (tok : List Char) : List Char → Bool
  | [] => tok.isEmpty
  | c :: cs => tok.isPrefixOf (c :: cs) || hasSubstr tok cs

/-- Fueled worker for `splitOnTok`; fuel at least the input length makes the
fuel-exhausted branch unreachable. -/
def splitOnTokF (tok : List Char) : Nat → List Char → List (List Char)
  | _, [] => [[]]
  | 0, l => [l]
  | f + 1, c :: cs =>
    if tok ≠ [] ∧ tok.isPrefixOf (c :: cs) then
      [] :: splitOnTokF tok f ((c :: cs).drop tok.length)
    else
      match splitOnTokF tok f cs with
      | [] => [[c]]
      | s :: ss => (c :: s) :: ss

/-- Embedding of JavaScript `s.split(tok)` for a non-empty string separator:
the maximal decomposition at leftmost, non-overlapping occurrences of
`tok`. -/
def splitOnTok (tok l : List Char) : List (List Char) :=
  splitOnTokF tok l.length l

/-- Embedding of JavaScript `parts.join(sep)`. -/
def joinSep (sep : List Char) : List (List Char) → List Char
  | [] => []
  | [x] => x
  | x :: y :: ys => x ++ sep ++ joinSep sep (y :: ys)

/-- Fueled worker for `replaceAll`. -/
def replaceAllF (tok rep : List Char) : Nat → List Char → List Char
  | _, [] => []
  | 0, l => l
  | f + 1, c :: cs =>
    if tok ≠ [] ∧ tok.isPrefixOf (c :: cs) then
      rep ++ replaceAllF tok rep f ((c :: cs).drop tok.length)
    else
      c :: replaceAllF tok rep f cs

/-- Embedding of JavaScript `s.replaceAll(tok, rep)` for a string pattern:
scan left to right, replacing each leftmost non-overlapping occurrence. -/
def replaceAll (tok rep l : List Char) : List Char :=
  replaceAllF tok rep l.length l

/-- JSON values as produced by `JSON.parse`. Numbers keep their raw lexeme
(no claim depends on numeric value, only on a number not being a string). -/
inductive Json where
  | null
  | bool (b : Bool)
  | num (raw : List Char)
  | str (s : List Char)
  | arr (elems : List Json)
  | obj (fields : List (List Char × Json))

/-- Leading-whitespace skipping inside the JSON grammar. -/
def skipJsonWs (l : List Char) : List Char := l.dropWhile isJsonWs

/-- Value of one hex digit, if any. -/
def hexVal (c : Char) : Option Nat :=
  if '0' ≤ c ∧ c ≤ '9' then some (c.toNat - 48)
  else if 'a' ≤ c ∧ c ≤ 'f' then some (c.toNat - 87)
  else if 'A' ≤ c ∧ c ≤ 'F' then some (c.toNat - 55)
  else none

/-- Prepends a character to the string component of a string-parser result. -/
def consStr (c : Char) : Option (List Char × List Char) → Option (List Char × List Char)
  | some (s, r) => some (c :: s, r)
  | none => none

/-- Body of a JSON string literal, after the opening quote: unescaped
characters, the short escapes, and `\uXXXX` (rejected for surrogate code
units, which `Char` cannot carry; they do not occur in the modelled data).
Raw control characters are a parse error, as in `JSON.parse`. -/
def parseStrBody : List Char → Option (List Char × List Char)
  | [] => none
  | '"' :: rest => some ([], rest)
  | '\\' :: esc =>
    match esc with
    | '"' :: r => consStr '"' (parseStrBody r)
    | '\\' :: r => consStr '\\' (parseStrBody r)
    | '/' :: r => consStr '/' (parseStrBody r)
    | 'b' :: r => consStr '\x08' (parseStrBody r)
    | 'f' :: r => consStr '\x0c' (parseStrBody r)
    | 'n' :: r => consStr '\n' (parseStrBody r)
    | 'r' :: r => consStr '\r' (parseStrBody r)
    | 't' :: r => consStr '\t' (parseStrBody r)
    | 'u' :: h1 :: h2 :: h3 :: h4 :: r =>
      match hexVal h1, hexVal h2, hexVal h3, hexVal h4 with
      | some a, some b, some c, some d =>
        let n := ((a * 16 + b) * 16 + c) * 16 + d
        if 0xd800 ≤ n ∧ n ≤ 0xdfff then none
        else consStr (Char.ofNat n) (parseStrBody r)
      | _, _, _, _ => none
    | _ => none
  | c :: rest => if c.toNat < 32 then none else consStr c (parseStrBody rest)

/-- Splits off the longest leading run of decimal digits. -/
def digitSpan (l : List Char) : List Char × List Char :=
  (l.takeWhile Char.isDigit, l.dropWhile Char.isDigit)

/-- Optional fraction part of a JSON number lexeme. -/
def parseFrac : List Char → Option (List Char × List Char)
  | '.' :: r =>
    match digitSpan r with
    | ([], _) => none
    | (ds, r2) => some ('.' :: ds, r2)
  | l => some ([], l)

/-- Optional exponent part of a JSON number lexeme. -/
def parseExp : List Char → Option (List Char × List Char)
  | c :: r =>
    if c = 'e' ∨ c = 'E' then
      let sr :=
        match r with
        | '+' :: r2 => (['+'], r2)
        | '-' :: r2 => (['-'], r2)
        | _ => ([], r)
      match digitSpan sr.2 with
      | ([], _) => none
      | (ds, r3) => some (c :: sr.1 ++ ds, r3)
    else some ([], c :: r)
  | [] => some ([], [])

/-- Whole JSON number lexeme (RFC 8259 grammar, incl. the no-leading-zero
rule). -/
def parseNumLex (l : List Char) : Option (List Char × List Char) :=
  let sl : List Char × List Char :=
    match l with
    | '-' :: r => (['-'], r)
    | _ => ([], l)
  match digitSpan sl.2 with
  | ([], _) => none
  | (ip, l2) =>
    if 1 < ip.length ∧ ip.headD '1' = '0' then none
    else
      match parseFrac l2 with
      | none => none
      | some (fp, l3) =>
        match parseExp l3 with
        | none => none
        | some (ep, l4) => some (sl.1 ++ ip ++ fp ++ ep, l4)

mutual

/-- Fueled JSON value parser (the core of the `JSON.parse` embedding). -/
def parseVal : Nat → List Char → Option (Json × List Char)
  | 0, _ => none
  | f + 1, l =>
    let l1 := skipJsonWs l
    if (chars "null").isPrefixOf l1 then some (.null, l1.drop 4)
    else if (chars "true").isPrefixOf l1 then some (.bool true, l1.drop 4)
    else if (chars "false").isPrefixOf l1 then some (.bool false, l1.drop 5)
    else
      match l1 with
      | '"' :: rest =>
        match parseStrBody rest with
        | some (s, r) => some (.str s, r)
        | none => none
      | '[' :: rest => parseArrRest f (skipJsonWs rest)
      | '\x7b' :: rest => parseObjRest f (skipJsonWs rest)
      | _ =>
        match parseNumLex l1 with
        | some (raw, r) => some (.num raw, r)
        | none => none

/-- Array elements after `[` (leading whitespace already skipped). -/
def parseArrRest : Nat → List Char → Option (Json × List Char)
  | 0, _ => none
  | f + 1, l =>
    match l with
    | ']' :: rest => some (.arr [], rest)
    | _ =>
      match parseVal f l with
      | some (v, r) => parseArrLoop f [v] (skipJsonWs r)
      | none => none

/-- Further array elements, at a `,` or the closing `]`. -/
def parseArrLoop : Nat → List Json → List Char → Option (Json × List Char)
  | 0, _, _ => none
  | f + 1, acc, l =>
    match l with
    | ']' :: rest => some (.arr acc.reverse, rest)
    | ',' :: rest =>
      match parseVal f rest with
      | some (v, r) => parseArrLoop f (v :: acc) (skipJsonWs r)
      | none => none
    | _ => none

/-- Object members after an opening brace (leading whitespace skipped). -/
def parseObjRest : Nat → List Char → Option (Json × List Char)
  | 0, _ => none
  | f + 1, l =>
    match l with
    | '\x7d' :: rest => some (.obj [], rest)
    | _ =>
      match parseMember f l with
      | some (kv, r) => parseObjLoop f [kv] (skipJsonWs r)
      | none => none

/-- Further object members, at a `,` or the closing brace. -/
def parseObjLoop : Nat → List (List Char × Json) → List Char → Option (Json × List Char)
  | 0, _, _ => none
  | f + 1, acc, l =>
    match l with
    | '\x7d' :: rest => some (.obj acc.reverse, rest)
    | ',' :: rest =>
      match parseMember f (skipJsonWs rest) with
      | some (kv, r) => parseObjLoop f (kv :: acc) (skipJsonWs r)
      | none => none
    | _ => none

/-- One `"key" : value` object member. -/
def parseMember : Nat → List Char → Option ((List Char × Json) × List Char)
  | 0, _ => none
  | f + 1, l =>
    match l with
    | '"' :: rest =>
      match parseStrBody rest with
      | some (k, r) =>
        match skipJsonWs r with
        | ':' :: r2 =>
          match parseVal f r2 with
          | some (v, r3) => some ((k, v), r3)
          | none => none
        | _ => none
      | none => none
    | _ => none

end

/-- Embedding of `JSON.parse`: parse one value, then require only trailing
whitespace. Fuel `2 * length + 8` exceeds the number of recursive calls any
input of that length can cause. -/
def jsonParse (l : List Char) : Option Json :=
  match parseVal (2 * l.length + 8) l with
  | some (j, rest) => if skipJsonWs rest = [] then some j else none
  | none => none

/-- Lowercase hex digit for a value below 16. -/
def hexDigitChar (n : Nat) : Char :=
  if n < 10 then Char.ofNat (48 + n) else Char.ofNat (87 + n)

/-- String-character escaping performed by `JSON.stringify`. -/
def escapeChar (c : Char) : List Char :=
  if c = '"' then ['\\', '"']
  else if c = '\\' then ['\\', '\\']
  else if c = '\x08' then ['\\', 'b']
  else if c = '\x0c' then ['\\', 'f']
  else if c = '\n' then ['\\', 'n']
  else if c = '\r' then ['\\', 'r']
  else if c = '\t' then ['\\', 't']
  else if c.toNat < 32 then
    ['\\', 'u', '0', '0', hexDigitChar (c.toNat / 16), hexDigitChar (c.toNat % 16)]
  else [c]

/-- Escapes every character of a serialized JSON string body. -/
def escapeJson (s : List Char) : List Char := (s.map escapeChar).flatten

mutual

/-- Embedding of `JSON.stringify` on parsed values. -/
def stringify : Json → List Char
  | .null => chars "null"
  | .bool true => chars "true"
  | .bool false => chars "false"
  | .num raw => raw
  | .str s => '"' :: escapeJson s ++ ['"']
  | .arr xs => '[' :: stringifyItems xs ++ [']']
  | .obj fs => '\x7b' :: stringifyFields fs ++ ['\x7d']

/-- Comma-separated serialized array elements. -/
def stringifyItems : List Json → List Char
  | [] => []
  | [x] => stringify x
  | x :: y :: xs => stringify x ++ ',' :: stringifyItems (y :: xs)

/-- Comma-separated serialized object members. -/
def stringifyFields : List (List Char × Json) → List Char
  | [] => []
  | [(k, v)] => '"' :: escapeJson k ++ '"' :: ':' :: stringify v
  | (k, v) :: p :: fs =>
    ('"' :: escapeJson k ++ '"' :: ':' :: stringify v) ++ ',' :: stringifyFields (p :: fs)

end

/-- Last-duplicate-wins field lookup, matching JavaScript object semantics
under `JSON.parse`. -/
def lookupLast (fs : List (List Char × Json)) (k : List Char) : Option Json :=
  fs.foldl (fun acc p => if p.1 = k then some p.2 else acc) none

/-- Optional-chaining property access `o?.k`: `none` models `undefined`.
Property access on a non-object (or on a nullish value) yields `undefined`;
the properties looked up here never exist on strings or arrays. -/
def getFieldQ : Option Json → List Char → Option Json
  | some (Json.obj fs), k => lookupLast fs k
  | _, _ => none

/-- Optional-chaining index access `o?.[0]`. Indexing a non-array yields a
value whose subsequent property access is `undefined`, so collapsing it to
`none` here is extensionally faithful for the access chain in the source. -/
def getHeadQ : Option Json → Option Json
  | some (Json.arr xs) => xs.head?
  | _ => none

/-- Nullish test for the result of an optional chain (`undefined` or
`null`), as used by the `??` operator. -/
def isNullish : Option Json → Bool
  | none => true
  | some Json.null => true
  | some _ => false

/-- Embedding of the delta extraction
`json?.choices?.[0]?.delta?.content ?? json?.delta` from both handlers. -/
def deltaOf (j : Json) : Option Json :=
  let c :=
    getFieldQ (getFieldQ (getHeadQ (getFieldQ (some j) (chars "choices"))) (chars "delta"))
      (chars "content")
  if isNullish c then getFieldQ (some j) (chars "delta") else c

/-- Whether a number lexeme denotes zero (its mantissa digits are all 0). -/
def numIsZero (raw : List Char) : Bool :=
  ((raw.takeWhile fun c => c ≠ 'e' ∧ c ≠ 'E').filter Char.isDigit).all (· = '0')

/-- JavaScript truthiness of a parsed JSON value. -/
def jsTruthy : Json → Bool
  | .null => false
  | .bool b => b
  | .str s => !s.isEmpty
  | .num raw => !numIsZero raw
  | .arr _ => true
  | .obj _ => true

/-- Payload of an outbound SSE frame: the exact bytes of
`sseLine` for a string argument, `data: <payload>\n\n`. -/
def sseFrame (payload : List Char) : List Char :=
  chars "data: " ++ payload ++ ['\n', '\n']

/-- The terminal sentinel frame `data: [DONE]\n\n`. -/
def doneFrame : List Char := sseFrame (chars "[DONE]")

/-- The frame `sseLine({ delta: text })` emits: the object is serialized by
`JSON.stringify`. -/
def deltaFrame (text : List Char) : List Char :=
  sseFrame (stringify (Json.obj [(chars "delta", Json.str text)]))

/-- The frame `sseLine(json)` emits for an arbitrary parsed value: a string
is written raw, anything else is serialized (the `typeof` test in
`sseLine`). -/
def sseAny : Json → List Char
  | .str s => sseFrame s
  | j => sseFrame (stringify j)

/-- The literal placeholder token `[DATE_PLUS_7]`. -/
def dateToken : List Char := chars "[DATE_PLUS_7]"

/-- Variant A's substitution
`delta.includes(tok) ? delta.split(tok).join(dv) : delta`. -/
def patchedSJ (dv s : List Char) : List Char :=
  if hasSubstr dateToken s then joinSep dv (splitOnTok dateToken s) else s

/-- Variant B's substitution
`delta.includes(tok) ? delta.replaceAll(tok, dv) : delta`. -/
def patchedRA (dv s : List Char) : List Char :=
  if hasSubstr dateToken s then replaceAll dateToken dv s else s

/-- Whether a line passes `line.startsWith("data:")`. -/
def isDataLine (line : List Char) : Bool := (chars "data:").isPrefixOf line

/-- The payload of a data line: `line.slice(5).trim()`. -/
def dataOf (line : List Char) : List Char := jsTrim (line.drop 5)

/-- Whether a complete line is the explicit upstream terminal marker. -/
def isDoneLine (line : List Char) : Bool :=
  isDataLine line && dataOf line == chars "[DONE]"

/-- Frames variant A (`src/api/chat.ts`) writes for one complete line of the
upstream stream, with resolved date `dv`. -/
def processLineA (dv line : List Char) : List (List Char) :=
  if isDataLine line = false then []
  else if dataOf line = chars "[DONE]" then [doneFrame]
  else
    match jsonParse (dataOf line) with
    | none => []
    | some j =>
      match deltaOf j with
      | some (.str s) => if s.isEmpty then [sseAny j] else [deltaFrame (patchedSJ dv s)]
      | _ => [sseAny j]

/-- Frames variant B (`src/unnamed/part_000`) writes for one complete line:
identical except that a parsed value without a non-empty string delta is
dropped instead of forwarded. -/
def processLineB (dv line : List Char) : List (List Char) :=
  if isDataLine line = false then []
  else if dataOf line = chars "[DONE]" then [doneFrame]
  else
    match jsonParse (dataOf line) with
    | none => []
    | some j =>
      match deltaOf j with
      | some (.str s) => if s.isEmpty then [] else [deltaFrame (patchedRA dv s)]
      | _ => []

/-- Variant A's end-of-stream drain: the leftover buffer, if non-empty, is
parsed directly as JSON (no `data:` stripping, no terminal-marker check) and
only a non-empty string delta is emitted. -/
def drainA (dv buf : List Char) : List (List Char) :=
  if buf.isEmpty then []
  else
    match jsonParse buf with
    | none => []
    | some j =>
      match deltaOf j with
      | some (.str s) => if s.isEmpty then [] else [deltaFrame (patchedSJ dv s)]
      | _ => []

/-- Variant B's end-of-stream drain (same shape, `replaceAll`
substitution). -/
def drainB (dv buf : List Char) : List (List Char) :=
  if buf.isEmpty then []
  else
    match jsonParse buf with
    | none => []
    | some j =>
      match deltaOf j with
      | some (.str s) => if s.isEmpty then [] else [deltaFrame (patchedRA dv s)]
      | _ => []

/-- One iteration of the read loop: append the chunk to the buffer, split
off the complete lines, emit their frames, keep the trailing fragment. -/
def feedWith (f : List Char → List (List Char)) (st : List Char × List (List Char))
    (chunk : List Char) : List Char × List (List Char) :=
  ((lineSplit (st.1 ++ chunk)).2, st.2 ++ ((lineSplit (st.1 ++ chunk)).1).flatMap f)

/-- The whole relay loop: fold the chunks through the line-buffered loop,
drain the leftover buffer, then write the final terminal sentinel. -/
def pipeline (f : List Char → List (List Char)) (d : List Char → List (List Char))
    (chunks : List (List Char)) : List (List Char) :=
  ((chunks.foldl (feedWith f) ([], [])).2 ++ d (chunks.foldl (feedWith f) ([], [])).1) ++
    [doneFrame]

/-- Outbound frame sequence of variant A's relay for a given resolved date
and upstream chunk sequence. -/
def relayA (dv : List Char) (chunks : List (List Char)) : List (List Char) :=
  pipeline (processLineA dv) (drainA dv) chunks

/-- Outbound frame sequence of variant B's relay. -/
def relayB (dv : List Char) (chunks : List (List Char)) : List (List Char) :=
  pipeline (processLineB dv) (drainB dv) chunks

/-- Complete lines of a chunk sequence, as the loop will see them. -/
def linesOf (chunks : List (List Char)) : List (List Char) :=
  (lineSplit chunks.flatten).1

/-- Trailing fragment left in the buffer after all chunks. -/
def trailOf (chunks : List (List Char)) : List Char :=
  (lineSplit chunks.flatten).2

/-- The non-empty string delta carried by a complete data line, when its
payload parses and the extraction chain finds one. -/
def extractedDelta (line : List Char) : Option (List Char) :=
  match jsonParse (dataOf line) with
  | some j =>
    match deltaOf j with
    | some (.str s) => if s.isEmpty then none else some s
    | _ => none
  | none => none

/-- A line on which the two variants behave identically by shape: not a
data line, or the explicit terminal marker, or a data line carrying a
non-empty string delta. -/
def goodLine (l : List Char) : Bool :=
  !(isDataLine l) || (dataOf l == chars "[DONE]") || (extractedDelta l).isSome

/-- A line that cannot trigger variant A's forward-unchanged branch:
`goodLine`, or a data line whose payload fails to parse. -/
def cleanLine (l : List Char) : Bool :=
  goodLine l || (jsonParse (dataOf l)).isNone

/-- A data line whose payload parses but carries no non-empty string delta:
exactly the lines variant A forwards unchanged and variant B drops. -/
def badShape (l : List Char) : Bool :=
  isDataLine l && !(dataOf l == chars "[DONE]") && (jsonParse (dataOf l)).isSome &&
    !(extractedDelta l).isSome

/-- Verbatim system prompt of variant A (`src/api/chat.ts`). -/
def promptA : String := "
You are the Cloud29 Discovery AI Assistant.

Your job: run a short, simple discovery chat that feels like a friendly conversation. Keep sentences short, everyday words only (grade 3–4 reading level). Avoid jargon. UK English.

Start as soon as the user types anything.
Greet them:
\"Hi, thanks for speaking to the Cloud29 AI Assistant 👋. This will take about 2 minutes. To begin, please share:
1) Your first name
2) Your company name
3) Your contact email\"

After they answer those three, ask:
\"Great, thanks. Next, what industry are you in?\"

Question ladder (one at a time):
1) Industry — \"What industry are you in?\"
2) Current tools — \"What software or tools do you use day to day? If none, do you use spreadsheets or do things by hand?\"
   - When they list a tool:
     - Assume it is a software brand/system.
     - Use web search to find the official website only.
     - Do not explain features/marketing. Do not return multiple URLs.
     - Confirm: \"I think I found the software you mean. Is this the correct system: [official URL]?\"
     - Repeat for each system mentioned. If you cannot find it, ask for the correct website.
3) Problems — \"Thinking about those tools, how can we improve your process? For example, are you spending time chasing clients, re-typing data, or manually handling invoices? Please tell me the issues you face day to day.\"
4) Digging into processes — If they mention invoices, quotes, proposals, reminders, or documents:
   - Acknowledge.
   - Ask: \"How do you currently handle [X] in [tool]? Do you create them inside the system, export them, or track them manually?\"
   - Suggest 1–2 plain improvements. Ask a check-back question (\"Would that help?\" / \"Would that save time?\").

Behaviour:
- Acknowledge every answer.
- Ask one question at a time.
- Keep suggestions to 1–2 items at a time.
- Never repeat the same question.
- Use web search only to confirm official software sites or obvious factual checks.
- If they ask \"How would you do that?\": say
  \"That’s exactly where our Cloud29 AI software comes in. We can connect with [the system you mentioned] and handle it automatically in the background. That means no more manual matching, re-typing, or chasing. One of our AI specialists will show you this live on a demo call once we’ve designed your project.\"

FAQ (answer these directly anytime, then resume discovery):
- How long will it take?
  \"It depends on your project. On average, it takes 7–10 days to build your demo. Once you approve the demo, it takes around 4–5 weeks to create your live application.\"
- How much will it cost?
  \"I can’t give precise figures yet because it depends on your project. We’ll discuss exact costs on your demo call with our implementation team. There are two costs:
   • Installation (to install and design everything) — starting at £499
   • License fee (to use the software) — starting at £199/month\"

Looping & gating:
- Do not produce the Discovery Summary until the customer clearly says there are no more issues.
  Use checks like:
  \"Apart from that, are there any other issues with [tool]?\"
  \"You also mentioned [other tool] — any problems there too?\"
  Proceed to summary only when they say \"no\" / \"that’s everything\".

Closing (only after explicit \"no more issues\"):
1) Thank them:
   \"Thanks, I’ve got a clear picture now. Based on what you’ve told me, here’s a short summary. We’ll use this to prepare your demo.\"
2) Show the Discovery Summary:

Discovery Summary

Contact
- First name: [first name]
- Company: [company name]
- Email: [email]

Industry
- [industry details]

Current Tools
- [list of software / spreadsheets / manual steps]

Main Problems
- 1) [short plain sentence]
- 2) [short plain sentence]
- 3) [short plain sentence]

Potential Improvements (Cloud29 AI)
- [improvement 1 in plain words]
- [improvement 2 in plain words]

3) Booking prompt with a dynamic date 7 days from now (Europe/London). IMPORTANT:
   Use the exact token [DATE_PLUS_7] instead of a date. The server will replace it.
   Say:
   \"Please click the button below to book your demo call. Make sure to choose a time at least 7 days from today (so from [DATE_PLUS_7] onwards). That gives us enough time to build your tailored demo. On that call, you’ll see your system working and can decide if you’d like to implement it in your business.\"
Do not add any text after this. End the conversation.
"

/-- Verbatim system prompt of variant B (`src/unnamed/part_000`). -/
def promptB : String := "
You are the Cloud29 Discovery AI Assistant.

Core rules:
- Friendly, UK English, grade 3–4 reading level.
- Greet, collect first name/company/email, then industry → tools → problems.
- One question at a time. Acknowledge each answer.
- Use clickable markdown links [https://url](https://url) when confirming software.
- Confirmation wording: \"I found this official website: [URL]. Please confirm if this is the correct system, as it’s important we note the right CRM/software you use.\"
- Never repeat the same question exactly. Rotate phrasings for \"any other issues\" (e.g. \"Anything else to note?\", \"Any other challenges with [tool]?\", \"Apart from that, is there more?\").
- If asked \"how will I see what’s going on?\" → answer:
  \"You’ll get a secure Cloud29 login. Inside, you can see everything we’ve built for you — live and in one place. That means no chasing or guessing; you’ll be able to view your automations and data any time.\"
- FAQ answers:
  - How long: \"On average, it takes 7–10 days to build your demo. Once you approve it, it takes 4–5 weeks to create your live application.\"
  - How much: \"There are two costs: Installation — starting at £499. License fee — starting at £199/month. Exact figures depend on your project and are explained in the demo.\"
- Do not produce the Discovery Summary until the user clearly says there are no more issues.
- When closing, always use the token [DATE_PLUS_7] (the server replaces this with the real UK date).
"

/-- Canned FAQ answer for the time intent in variant A. -/
def timeTextA : List Char := chars "It depends on your project. On average, it takes 7–10 days to build your demo. Once you approve the demo, it takes around 4–5 weeks to create your live application."

/-- Canned FAQ answer for the cost intent in variant A. -/
def costTextA : List Char := chars "I can’t give precise figures yet because it depends on your project. We’ll discuss exact costs on your demo call with our implementation team. There are two costs:\n• Installation (to install and design everything) — starting at £499\n• License fee (to use the software) — starting at £199/month"

/-- Canned FAQ answer for the time intent in variant B. -/
def timeTextB : List Char := chars "On average, it takes 7–10 days to build your demo. Once you approve it, it takes 4–5 weeks to create your live application."

/-- Canned FAQ answer for the cost intent in variant B. -/
def costTextB : List Char := chars "There are two costs: Installation — starting at £499. License fee — starting at £199/month. Exact figures depend on your project and are explained in the demo."

/-- Canned FAQ answer for the visibility intent in variant B. -/
def visTextB : List Char := chars "You’ll get a secure Cloud29 login. Inside, you can see everything we’ve built for you — live and in one place. That means no chasing or guessing; you’ll be able to view your automations and data any time."

/-- Fragments of the source's intent regular expressions: a literal run,
`\s*`, `\s+`, or `.*`. -/
inductive Pat where
  | lit (s : List Char)
  | ws0
  | ws1
  | dotStar

/-- Characters matched by the regex class `\s` (ASCII part plus NBSP and
BOM; other Unicode space characters do not occur in the modelled data). -/
def isReWs (c : Char) : Bool :=
  c = ' ' || c = '\t' || c = '\n' || c = '\x0b' || c = '\x0c' || c = '\r' ||
  c = '\u00A0' || c = '\uFEFF'

/-- Line terminators, which `.` does not match without the `s` flag. -/
def isLineTerm (c : Char) : Bool :=
  c = '\n' || c = '\r' || c = '\u2028' || c = '\u2029'

/-- Suffixes reachable by consuming zero or more `\s` characters. -/
def wsDrops : List Char → List (List Char)
  | [] => [[]]
  | c :: cs => if isReWs c then (c :: cs) :: wsDrops cs else [c :: cs]

/-- Suffixes reachable by consuming zero or more non-line-terminator
characters (the possible continuations after `.*`). -/
def dotDrops : List Char → List (List Char)
  | [] => [[]]
  | c :: cs => if isLineTerm c then [c :: cs] else (c :: cs) :: dotDrops cs

/-- Backtracking matcher for one alternative, anchored at the start of
`l`. -/
def matchHere : List Pat → List Char → Bool
  | [], _ => true
  | .lit s :: ps, l => s.isPrefixOf l && matchHere ps (l.drop s.length)
  | .ws0 :: ps, l => (wsDrops l).any fun r => matchHere ps r
  | .ws1 :: ps, l =>
    match l with
    | c :: cs => isReWs c && (wsDrops cs).any fun r => matchHere ps r
    | [] => false
  | .dotStar :: ps, l => (dotDrops l).any fun r => matchHere ps r

/-- All suffixes of a character list. -/
def suffixes : List Char → List (List Char)
  | [] => [[]]
  | c :: cs => (c :: cs) :: suffixes cs

/-- Embedding of `/(alt1|alt2|...)/.test(l)`: some alternative matches at
some position. -/
def reTest (alts : List (List Pat)) (l : List Char) : Bool :=
  (suffixes l).any fun suf => alts.any fun ps => matchHere ps suf

/-- Variant A's time-intent pattern
`/(how\s+long|time\s*line|how\s+much\s+time|when.*ready)/i`. -/
def faqTimePatsA : List (List Pat) :=
  [[.lit (chars "how"), .ws1, .lit (chars "long")],
   [.lit (chars "time"), .ws0, .lit (chars "line")],
   [.lit (chars "how"), .ws1, .lit (chars "much"), .ws1, .lit (chars "time")],
   [.lit (chars "when"), .dotStar, .lit (chars "ready")]]

/-- Variant A's cost-intent pattern
`/(how\s+much|price|pricing|cost|costs|license\s*fee|installation\s*cost)/i`. -/
def faqCostPatsA : List (List Pat) :=
  [[.lit (chars "how"), .ws1, .lit (chars "much")],
   [.lit (chars "price")],
   [.lit (chars "pricing")],
   [.lit (chars "cost")],
   [.lit (chars "costs")],
   [.lit (chars "license"), .ws0, .lit (chars "fee")],
   [.lit (chars "installation"), .ws0, .lit (chars "cost")]]

/-- Variant B's time-intent pattern
`/(how\s+long|timeline|how\s+much\s+time|when.*ready)/i`. -/
def faqTimePatsB : List (List Pat) :=
  [[.lit (chars "how"), .ws1, .lit (chars "long")],
   [.lit (chars "timeline")],
   [.lit (chars "how"), .ws1, .lit (chars "much"), .ws1, .lit (chars "time")],
   [.lit (chars "when"), .dotStar, .lit (chars "ready")]]

/-- Variant B's cost-intent pattern
`/(how\s+much|price|pricing|cost|license|installation)/i`. -/
def faqCostPatsB : List (List Pat) :=
  [[.lit (chars "how"), .ws1, .lit (chars "much")],
   [.lit (chars "price")],
   [.lit (chars "pricing")],
   [.lit (chars "cost")],
   [.lit (chars "license")],
   [.lit (chars "installation")]]

/-- Variant B's visibility-intent pattern
`/(how.*see|how.*going|how.*track|how.*watch)/i`. -/
def faqVisPatsB : List (List Pat) :=
  [[.lit (chars "how"), .dotStar, .lit (chars "see")],
   [.lit (chars "how"), .dotStar, .lit (chars "going")],
   [.lit (chars "how"), .dotStar, .lit (chars "track")],
   [.lit (chars "how"), .dotStar, .lit (chars "watch")]]

/-- Embedding of `s.toLowerCase()` (ASCII-adequate; the intent patterns and
the modelled contents are ASCII). -/
def jsLower (l : List Char) : List Char := l.map Char.toLower

/-- Content the shortcut responder inspects:
`(messages[messages.length - 1]?.content || "").toLowerCase()`.
`none` models the `TypeError` thrown when the content is a truthy
non-string (`.toLowerCase` does not exist on it). -/
def testedContent (msgs : List Json) : Option (List Char) :=
  match msgs.getLast? with
  | none => some []
  | some m =>
    match getFieldQ (some m) (chars "content") with
    | none => some []
    | some v =>
      if jsTruthy v then
        match v with
        | .str s => some (jsLower s)
        | _ => none
      else some []

/-- System instruction turn variant A prepends:
`{ role: "system", content: SYSTEM_PROMPT }`. -/
def systemTurnA : Json :=
  Json.obj [(chars "role", Json.str (chars "system")),
            (chars "content", Json.str (chars promptA))]

/-- System instruction turn variant B prepends. -/
def systemTurnB : Json :=
  Json.obj [(chars "role", Json.str (chars "system")),
            (chars "content", Json.str (chars promptB))]

/-- What the handler does after intake: answer from the canned table (the
frames of the already-complete stream), or call the upstream completion API
with the given payload. `thrown` models an uncaught exception. A
`shortcut` outcome makes no upstream call by construction. -/
inductive Outcome where
  | shortcut (frames : List (List Char))
  | callUpstream (model : Json) (messages : List Json)
  | thrown

/-- Variant A's FAQ shortcut and payload construction: test the inspected
content against the time then cost patterns; on a match emit one delta
frame with the canned text followed by the terminal sentinel, otherwise
build the upstream payload with the system turn prepended to the caller's
messages. -/
def dispatchA (msgs : List Json) (model : Json) : Outcome :=
  match testedContent msgs with
  | none => .thrown
  | some last =>
    if reTest faqTimePatsA last || reTest faqCostPatsA last then
      .shortcut
        [deltaFrame (if reTest faqTimePatsA last then timeTextA else costTextA), doneFrame]
    else .callUpstream model (systemTurnA :: msgs)

/-- Variant B's FAQ shortcut and payload construction (adds the visibility
intent). -/
def dispatchB (msgs : List Json) (model : Json) : Outcome :=
  match testedContent msgs with
  | none => .thrown
  | some last =>
    if reTest faqTimePatsB last || reTest faqCostPatsB last || reTest faqVisPatsB last then
      .shortcut
        [deltaFrame
          (if reTest faqTimePatsB last then timeTextB
           else if reTest faqCostPatsB last then costTextB
           else visTextB),
         doneFrame]
    else .callUpstream model (systemTurnB :: msgs)

/-- The frames of variant A's shortcut response, when one fires (the model
argument cannot influence this). -/
def shortcutResultA (msgs : List Json) : Option (List (List Char)) :=
  match dispatchA msgs (Json.str (chars "gpt-4o-mini")) with
  | .shortcut fs => some fs
  | _ => none

/-- The frames of variant B's shortcut response, when one fires. -/
def shortcutResultB (msgs : List Json) : Option (List (List Char)) :=
  match dispatchB msgs (Json.str (chars "gpt-4o-mini")) with
  | .shortcut fs => some fs
  | _ => none

/-- The fixed default model identifier `"gpt-4o-mini"`. -/
def defaultModel : Json := Json.str (chars "gpt-4o-mini")

/-- Embedding of
`Array.isArray(body?.messages) ? body.messages : []`. -/
def bodyMessages (body : Json) : List Json :=
  match getFieldQ (some body) (chars "messages") with
  | some (.arr xs) => xs
  | _ => []

/-- Embedding of `body?.model || "gpt-4o-mini"`. -/
def bodyModel (body : Json) : Json :=
  match getFieldQ (some body) (chars "model") with
  | some v => if jsTruthy v then v else defaultModel
  | none => defaultModel

/-- Result of the intake stage, shared verbatim by both variants. -/
inductive HandlerStage where
  | methodNotAllowed
  | missingKey
  | proceed (messages : List Json) (model : Json)

/-- Intake of both handlers: reject non-POST (405), reject a missing
credential (500), otherwise parse the body — `parsed = none` models the
`req.json()` failure swallowed by `try { ... } catch {}`, leaving
`body = {}` — and extract `messages` and `model`. -/
def handlerIntake (method : List Char) (hasKey : Bool) (parsed : Option Json) :
    HandlerStage :=
  if method ≠ chars "POST" then .methodNotAllowed
  else if hasKey = false then .missingKey
  else
    .proceed (bodyMessages (parsed.getD (Json.obj [])))
      (bodyModel (parsed.getD (Json.obj [])))

theorem lineSplit_append (x y : List Char) :
    lineSplit (x ++ y) =
      ((lineSplit x).1 ++ (lineSplit ((lineSplit x).2 ++ y)).1,
       (lineSplit ((lineSplit x).2 ++ y)).2) := by
  induction x with
  | nil => simp [lineSplit]
  | cons c x ih =>
    by_cases hc : c = '\n'
    · subst hc
      simp [lineSplit, ih]
    · rcases h1 : (lineSplit x).1 with _ | ⟨l, ls⟩
      · rcases h2 : (lineSplit ((lineSplit x).2 ++ y)).1 with _ | ⟨m, ms⟩
        · simp [lineSplit, hc, ih, h1, h2]
        · simp [lineSplit, hc, ih, h1, h2]
      · simp [lineSplit, hc, ih, h1]

theorem trail_no_nl (x : List Char) : '\n' ∉ (lineSplit x).2 := by
  induction x with
  | nil => simp [lineSplit]
  | cons c x ih =>
    by_cases hc : c = '\n'
    · subst hc; simpa [lineSplit] using ih
    · rcases h1 : (lineSplit x).1 with _ | ⟨l, ls⟩
      · simp only [lineSplit, hc, if_false, h1]
        intro h
        rcases List.mem_cons.mp h with h | h
        · exact hc h.symm
        · exact ih h
      · simpa [lineSplit, hc, h1] using ih

theorem lineSplit_no_nl (b : List Char) (h : '\n' ∉ b) : lineSplit b = ([], b) := by
  induction b with
  | nil => simp [lineSplit]
  | cons c x ih =>
    have hc : c ≠ '\n' := fun hh => h (hh ▸ List.mem_cons_self c x)
    have hx : '\n' ∉ x := fun hh => h (List.mem_cons_of_mem c hh)
    simp [lineSplit, hc, ih hx]

theorem foldl_feedWith (f : List Char → List (List Char)) (cs : List (List Char))
    (buf : List Char) (acc : List (List Char)) (h : '\n' ∉ buf) :
    cs.foldl (feedWith f) (buf, acc) =
      ((lineSplit (buf ++ cs.flatten)).2,
       acc ++ ((lineSplit (buf ++ cs.flatten)).1).flatMap f) := by
  induction cs generalizing buf acc with
  | nil => simp [lineSplit_no_nl buf h]
  | cons c cs ih =>
    simp only [List.foldl_cons, List.flatten_cons, feedWith]
    rw [ih _ _ (trail_no_nl _)]
    have hsa := lineSplit_append (buf ++ c) cs.flatten
    rw [← List.append_assoc, hsa]
    simp [List.flatMap_append, List.append_assoc]

theorem pipeline_eq (f d : List Char → List (List Char)) (cs : List (List Char)) :
    pipeline f d cs =
      ((lineSplit cs.flatten).1).flatMap f ++ d (lineSplit cs.flatten).2 ++ [doneFrame] := by
  unfold pipeline
  rw [foldl_feedWith f cs [] [] (by simp)]
  simp [List.append_assoc]

theorem pipeline_flatten (f d : List Char → List (List Char)) (cs : List (List Char)) :
    pipeline f d cs = pipeline f d [cs.flatten] := by
  rw [pipeline_eq, pipeline_eq]
  simp

theorem splitOnTokF_ne_nil (tok : List Char) : ∀ (f : Nat) (l : List Char),
    splitOnTokF tok f l ≠ []
  | _, [] => by simp [splitOnTokF]
  | 0, _ :: _ => by simp [splitOnTokF]
  | f + 1, c :: cs => by
    by_cases h : tok ≠ [] ∧ tok.isPrefixOf (c :: cs)
    · simp [splitOnTokF, h]
    · simp only [splitOnTokF, h, if_false]
      rcases hs : splitOnTokF tok f cs with _ | ⟨s, ss⟩ <;> simp

theorem joinSep_splitOnTokF (tok : List Char) (htok : tok ≠ []) :
    ∀ (f : Nat) (l : List Char), l.length ≤ f →
      joinSep tok (splitOnTokF tok f l) = l := by
  intro f
  induction f with
  | zero =>
    intro l hl
    have h0 : l = [] := List.length_eq_zero.mp (Nat.le_zero.mp hl)
    subst h0
    simp [splitOnTokF, joinSep]
  | succ f ih =>
    intro l hl
    match l with
    | [] => simp [splitOnTokF, joinSep]
    | c :: cs =>
      by_cases h : tok.isPrefixOf (c :: cs)
      · have hcond : tok ≠ [] ∧ tok.isPrefixOf (c :: cs) := ⟨htok, h⟩
        rw [splitOnTokF, if_pos hcond]
        obtain ⟨t, ht⟩ := List.isPrefixOf_iff_prefix.mp h
        have hdrop : (c :: cs).drop tok.length = t := by
          rw [← ht]; exact List.drop_left tok t
        have htokpos : 1 ≤ tok.length := List.length_pos.mpr htok
        have hlent : t.length ≤ f := by
          have hht := congrArg List.length ht
          simp only [List.length_append, List.length_cons] at hht
          simp only [List.length_cons] at hl
          omega
        rw [hdrop]
        rcases hs : splitOnTokF tok f t with _ | ⟨s, ss⟩
        · exact absurd hs (splitOnTokF_ne_nil tok f t)
        · have iht := ih t hlent
          rw [hs] at iht
          rw [joinSep, iht]
          simpa using ht
      · have hcond : ¬(tok ≠ [] ∧ tok.isPrefixOf (c :: cs)) := fun hh => h hh.2
        rw [splitOnTokF, if_neg hcond]
        have hcs : cs.length ≤ f := by
          simp only [List.length_cons] at hl; omega
        have ihcs := ih cs hcs
        rcases hs : splitOnTokF tok f cs with _ | ⟨s, ss⟩
        · exact absurd hs (splitOnTokF_ne_nil tok f cs)
        · rw [hs] at ihcs
          cases ss with
          | nil =>
            simp only [joinSep] at ihcs ⊢
            rw [ihcs]
          | cons s2 ss2 =>
            rw [joinSep] at ihcs ⊢
            rw [← ihcs]
            simp

theorem replaceAllF_eq_joinSep (tok rep : List Char) (htok : tok ≠ []) :
    ∀ (f : Nat) (l : List Char), l.length ≤ f →
      replaceAllF tok rep f l = joinSep rep (splitOnTokF tok f l) := by
  intro f
  induction f with
  | zero =>
    intro l hl
    have h0 : l = [] := List.length_eq_zero.mp (Nat.le_zero.mp hl)
    subst h0
    simp [splitOnTokF, replaceAllF, joinSep]
  | succ f ih =>
    intro l hl
    match l with
    | [] => simp [splitOnTokF, replaceAllF, joinSep]
    | c :: cs =>
      by_cases h : tok.isPrefixOf (c :: cs)
      · have hcond : tok ≠ [] ∧ tok.isPrefixOf (c :: cs) := ⟨htok, h⟩
        rw [splitOnTokF, replaceAllF, if_pos hcond, if_pos hcond]
        obtain ⟨t, ht⟩ := List.isPrefixOf_iff_prefix.mp h
        have hdrop : (c :: cs).drop tok.length = t := by
          rw [← ht]; exact List.drop_left tok t
        have htokpos : 1 ≤ tok.length := List.length_pos.mpr htok
        have hlent : t.length ≤ f := by
          have hht := congrArg List.length ht
          simp only [List.length_append, List.length_cons] at hht
          simp only [List.length_cons] at hl
          omega
        rw [hdrop]
        rcases hs : splitOnTokF tok f t with _ | ⟨s, ss⟩
        · exact absurd hs (splitOnTokF_ne_nil tok f t)
        · have iht := ih t hlent
          rw [hs] at iht
          rw [joinSep, iht]
          simp
      · have hcond : ¬(tok ≠ [] ∧ tok.isPrefixOf (c :: cs)) := fun hh => h hh.2
        rw [splitOnTokF, replaceAllF, if_neg hcond, if_neg hcond]
        have hcs : cs.length ≤ f := by
          simp only [List.length_cons] at hl; omega
        have ihcs := ih cs hcs
        rcases hs : splitOnTokF tok f cs with _ | ⟨s, ss⟩
        · exact absurd hs (splitOnTokF_ne_nil tok f cs)
        · rw [hs] at ihcs
          cases ss with
          | nil =>
            simp only [joinSep] at ihcs ⊢
            rw [ihcs]
          | cons s2 ss2 =>
            rw [joinSep] at ihcs ⊢
            rw [ihcs]
            simp

theorem splitOnTokF_no_substr (tok : List Char) (htok : tok ≠ []) :
    ∀ (f : Nat) (l : List Char), l.length ≤ f →
      ∀ s ∈ splitOnTokF tok f l, hasSubstr tok s = false := by
  intro f
  induction f with
  | zero =>
    intro l hl s hs
    have h0 : l = [] := List.length_eq_zero.mp (Nat.le_zero.mp hl)
    subst h0
    simp only [splitOnTokF, List.mem_singleton] at hs
    subst hs
    simp [hasSubstr, htok]
  | succ f ih =>
    intro l hl s hs
    match l with
    | [] =>
      simp only [splitOnTokF, List.mem_singleton] at hs
      subst hs
      simp [hasSubstr, htok]
    | c :: cs =>
      by_cases h : tok.isPrefixOf (c :: cs)
      · rw [splitOnTokF, if_pos ⟨htok, h⟩] at hs
        obtain ⟨t, ht⟩ := List.isPrefixOf_iff_prefix.mp h
        have hdrop : (c :: cs).drop tok.length = t := by
          rw [← ht]; exact List.drop_left tok t
        have htokpos : 1 ≤ tok.length := List.length_pos.mpr htok
        have hlent : t.length ≤ f := by
          have hht := congrArg List.length ht
          simp only [List.length_append, List.length_cons] at hht
          simp only [List.length_cons] at hl
          omega
        rw [hdrop] at hs
        rcases List.mem_cons.mp hs with h1 | h1
        · subst h1; simp [hasSubstr, htok]
        · exact ih t hlent s h1
      · have hcond : ¬(tok ≠ [] ∧ tok.isPrefixOf (c :: cs)) := fun hh => h hh.2
        rw [splitOnTokF, if_neg hcond] at hs
        have hcs : cs.length ≤ f := by
          simp only [List.length_cons] at hl; omega
        rcases hsp : splitOnTokF tok f cs with _ | ⟨s1, ss⟩
        · exact absurd hsp (splitOnTokF_ne_nil tok f cs)
        · rw [hsp] at hs
          rcases List.mem_cons.mp hs with h1 | h1
          · subst h1
            have hs1 : hasSubstr tok s1 = false :=
              ih cs hcs s1 (hsp ▸ List.mem_cons_self s1 ss)
            have hpre : tok.isPrefixOf (c :: s1) = false := by
              by_contra hx
              have hx' : tok.isPrefixOf (c :: s1) = true := by
                revert hx; cases tok.isPrefixOf (c :: s1) <;> simp
              have hp1 : tok <+: c :: s1 := List.isPrefixOf_iff_prefix.mp hx'
              have hjoin := joinSep_splitOnTokF tok htok f cs hcs
              rw [hsp] at hjoin
              have hp2 : tok <+: c :: cs := by
                cases ss with
                | nil =>
                  simp only [joinSep] at hjoin
                  rw [← hjoin]
                  exact hp1
                | cons s2 ss2 =>
                  rw [joinSep] at hjoin
                  have hcp : (c :: s1) <+: c :: cs := by
                    rw [← hjoin]
                    simp
                  exact hp1.trans hcp
              exact h (List.isPrefixOf_iff_prefix.mpr hp2)
            simp [hasSubstr, hpre, hs1]
          · exact ih cs hcs s (hsp ▸ List.mem_cons_of_mem s1 h1)

theorem not_substr_splitOnTokF (tok : List Char) :
    ∀ (f : Nat) (l : List Char), l.length ≤ f → hasSubstr tok l = false →
      splitOnTokF tok f l = [l] := by
  intro f
  induction f with
  | zero =>
    intro l hl _
    have h0 : l = [] := List.length_eq_zero.mp (Nat.le_zero.mp hl)
    subst h0
    simp [splitOnTokF]
  | succ f ih =>
    intro l hl hsub
    match l with
    | [] => simp [splitOnTokF]
    | c :: cs =>
      simp only [hasSubstr, Bool.or_eq_false_iff] at hsub
      have hcond : ¬(tok ≠ [] ∧ tok.isPrefixOf (c :: cs)) := fun hh => by
        rw [hsub.1] at hh
        exact Bool.false_ne_true hh.2
      rw [splitOnTokF, if_neg hcond]
      have hcs : cs.length ≤ f := by
        simp only [List.length_cons] at hl; omega
      rw [ih cs hcs hsub.2]

theorem dateToken_ne_nil : dateToken ≠ [] := by decide

theorem patched_eq (dv s : List Char) : patchedSJ dv s = patchedRA dv s := by
  unfold patchedSJ patchedRA
  by_cases h : hasSubstr dateToken s = true
  · rw [if_pos h, if_pos h]
    unfold replaceAll splitOnTok
    rw [replaceAllF_eq_joinSep dateToken dv dateToken_ne_nil s.length s (Nat.le_refl _)]
  · rw [if_neg h, if_neg h]

theorem splitOnTok_join (s : List Char) :
    joinSep dateToken (splitOnTok dateToken s) = s :=
  joinSep_splitOnTokF dateToken dateToken_ne_nil s.length s (Nat.le_refl _)

theorem splitOnTok_segments (s : List Char) :
    ∀ seg ∈ splitOnTok dateToken s, hasSubstr dateToken seg = false :=
  splitOnTokF_no_substr dateToken dateToken_ne_nil s.length s (Nat.le_refl _)

theorem replaceAll_eq_join (dv s : List Char) :
    replaceAll dateToken dv s = joinSep dv (splitOnTok dateToken s) :=
  replaceAllF_eq_joinSep dateToken dv dateToken_ne_nil s.length s (Nat.le_refl _)

theorem replaceAll_id_of_no_substr (dv s : List Char)
    (h : hasSubstr dateToken s = false) : replaceAll dateToken dv s = s := by
  rw [replaceAll_eq_join, splitOnTok]
  rw [not_substr_splitOnTokF dateToken s.length s (Nat.le_refl _) h]
  rfl

theorem deltaFrame_ne_doneFrame (p : List Char) : deltaFrame p ≠ doneFrame := by
  intro h
  have h7 := congrArg (fun l => l.get? 6) h
  simp [deltaFrame, doneFrame, sseFrame, chars, stringify] at h7

theorem isDoneLine_false_of_not_data (l : List Char) (h : isDataLine l = false) :
    isDoneLine l = false := by
  simp [isDoneLine, h]

theorem count_done_processLineB (dv l : List Char) :
    (processLineB dv l).count doneFrame = if isDoneLine l then 1 else 0 := by
  unfold processLineB
  by_cases h1 : isDataLine l = true
  · by_cases h2 : dataOf l = chars "[DONE]"
    · have hD : isDoneLine l = true := by simp [isDoneLine, h1, h2]
      rw [if_neg (by simp [h1]), if_pos h2, hD]
      simp [List.count_cons]
    · have hD : isDoneLine l = false := by simp [isDoneLine, h1, h2]
      rw [if_neg (by simp [h1]), if_neg h2, hD]
      cases hj : jsonParse (dataOf l) with
      | none => simp
      | some j =>
        cases hd : deltaOf j with
        | none => simp [hd]
        | some jd =>
          cases jd with
          | str s =>
            by_cases hs : s = []
            · simp [hd, hs]
            · simp [hd, hs, List.count_cons, deltaFrame_ne_doneFrame]
          | null => simp [hd]
          | bool b => simp [hd]
          | num raw => simp [hd]
          | arr xs => simp [hd]
          | obj fs => simp [hd]
  · have h1' : isDataLine l = false := by revert h1; cases isDataLine l <;> simp
    rw [if_pos (by simp [h1']), isDoneLine_false_of_not_data l h1']
    simp

theorem count_done_processLineA (dv l : List Char) (h : cleanLine l = true) :
    (processLineA dv l).count doneFrame = if isDoneLine l then 1 else 0 := by
  unfold processLineA
  by_cases h1 : isDataLine l = true
  · by_cases h2 : dataOf l = chars "[DONE]"
    · have hD : isDoneLine l = true := by simp [isDoneLine, h1, h2]
      rw [if_neg (by simp [h1]), if_pos h2, hD]
      simp [List.count_cons]
    · have hD : isDoneLine l = false := by simp [isDoneLine, h1, h2]
      rw [if_neg (by simp [h1]), if_neg h2, hD]
      cases hj : jsonParse (dataOf l) with
      | none => simp
      | some j =>
        have hext : (extractedDelta l).isSome = true := by
          simp only [cleanLine, goodLine, h1, Bool.not_true, Bool.false_or,
            hj, Option.isNone_some, Bool.or_false] at h
          rcases Bool.or_eq_true_iff.mp h with hx | hx
          · exact absurd (by simpa using hx) h2
          · exact hx
        obtain ⟨s, hs⟩ := Option.isSome_iff_exists.mp hext
        simp only [extractedDelta, hj] at hs
        cases hd : deltaOf j with
        | none => rw [hd] at hs; simp at hs
        | some jd =>
          rw [hd] at hs
          cases jd with
          | str s2 =>
            by_cases hs2 : s2 = []
            · simp [hs2] at hs
            · simp [hd, hs2, List.count_cons, deltaFrame_ne_doneFrame]
          | null => simp at hs
          | bool b => simp at hs
          | num raw => simp at hs
          | arr xs => simp at hs
          | obj fs => simp at hs
  · have h1' : isDataLine l = false := by revert h1; cases isDataLine l <;> simp
    rw [if_pos (by simp [h1']), isDoneLine_false_of_not_data l h1']
    simp

theorem count_done_drainA (dv b : List Char) : (drainA dv b).count doneFrame = 0 := by
  unfold drainA
  by_cases hb : b.isEmpty
  · simp [hb]
  · rw [if_neg hb]
    cases hj : jsonParse b with
    | none => simp
    | some j =>
      cases hd : deltaOf j with
      | none => simp [hd]
      | some jd =>
        cases jd with
        | str s =>
          by_cases hs : s = []
          · simp [hd, hs]
          · simp [hd, hs, List.count_cons, deltaFrame_ne_doneFrame]
        | null => simp [hd]
        | bool bb => simp [hd]
        | num raw => simp [hd]
        | arr xs => simp [hd]
        | obj fs => simp [hd]

theorem count_done_drainB (dv b : List Char) : (drainB dv b).count doneFrame = 0 := by
  unfold drainB
  by_cases hb : b.isEmpty
  · simp [hb]
  · rw [if_neg hb]
    cases hj : jsonParse b with
    | none => simp
    | some j =>
      cases hd : deltaOf j with
      | none => simp [hd]
      | some jd =>
        cases jd with
        | str s =>
          by_cases hs : s = []
          · simp [hd, hs]
          · simp [hd, hs, List.count_cons, deltaFrame_ne_doneFrame]
        | null => simp [hd]
        | bool bb => simp [hd]
        | num raw => simp [hd]
        | arr xs => simp [hd]
        | obj fs => simp [hd]

theorem drain_eq (dv b : List Char) : drainA dv b = drainB dv b := by
  unfold drainA drainB
  by_cases hb : b.isEmpty
  · simp [hb]
  · rw [if_neg hb, if_neg hb]
    cases hj : jsonParse b with
    | none => rfl
    | some j =>
      cases hd : deltaOf j with
      | none => simp [hd]
      | some jd =>
        cases jd with
        | str s =>
          by_cases hs : s = []
          · simp [hd, hs]
          · simp [hd, hs, patched_eq]
        | null => simp [hd]
        | bool bb => simp [hd]
        | num raw => simp [hd]
        | arr xs => simp [hd]
        | obj fs => simp [hd]

theorem processLine_skip (dv l : List Char) (hmark : isDoneLine l = false)
    (h : isDataLine l = false ∨ jsonParse (dataOf l) = none) :
    processLineA dv l = [] ∧ processLineB dv l = [] := by
  rcases h with h | h
  · simp [processLineA, processLineB, h]
  · by_cases h1 : isDataLine l = true
    · have h2 : ¬ dataOf l = chars "[DONE]" := by
        intro hx
        rw [isDoneLine, h1, hx] at hmark
        simp at hmark
      simp [processLineA, processLineB, h1, h2, h]
    · have h1' : isDataLine l = false := by revert h1; cases isDataLine l <;> simp
      simp [processLineA, processLineB, h1']

theorem processLineB_drop (dv l : List Char) (hmark : isDoneLine l = false)
    (hext : extractedDelta l = none) : processLineB dv l = [] := by
  by_cases h1 : isDataLine l = true
  · have h2 : ¬ dataOf l = chars "[DONE]" := by
      intro hx
      rw [isDoneLine, h1, hx] at hmark
      simp at hmark
    cases hj : jsonParse (dataOf l) with
    | none => simp [processLineB, h1, h2, hj]
    | some j =>
      simp only [extractedDelta, hj] at hext
      cases hd : deltaOf j with
      | none => simp [processLineB, h1, h2, hj, hd]
      | some jd =>
        rw [hd] at hext
        cases jd with
        | str s =>
          by_cases hs : s = []
          · simp [processLineB, h1, h2, hj, hd, hs]
          · simp [hs] at hext
        | null => simp [processLineB, h1, h2, hj, hd]
        | bool b => simp [processLineB, h1, h2, hj, hd]
        | num raw => simp [processLineB, h1, h2, hj, hd]
        | arr xs => simp [processLineB, h1, h2, hj, hd]
        | obj fs => simp [processLineB, h1, h2, hj, hd]
  · have h1' : isDataLine l = false := by revert h1; cases isDataLine l <;> simp
    simp [processLineB, h1']

theorem processLine_badShape (dv l : List Char) (h : badShape l = true) :
    ∃ j, jsonParse (dataOf l) = some j ∧ processLineA dv l = [sseAny j] ∧
      processLineB dv l = [] := by
  simp only [badShape, Bool.and_eq_true] at h
  obtain ⟨⟨⟨h1, h2b⟩, h3⟩, h4b⟩ := h
  have h2 : ¬ dataOf l = chars "[DONE]" := by
    rw [Bool.not_eq_true'] at h2b
    exact beq_eq_false_iff_ne.mp h2b
  have h4 : extractedDelta l = none := by
    rw [Bool.not_eq_true'] at h4b
    exact Option.not_isSome_iff_eq_none.mp (by simp [h4b])
  obtain ⟨j, hj⟩ := Option.isSome_iff_exists.mp h3
  refine ⟨j, hj, ?_, processLineB_drop dv l (by simp [isDoneLine, h2]) h4⟩
  simp only [extractedDelta, hj] at h4
  cases hd : deltaOf j with
  | none => simp [processLineA, h1, h2, hj, hd]
  | some jd =>
    rw [hd] at h4
    cases jd with
    | str s =>
      by_cases hs : s = []
      · simp [processLineA, h1, h2, hj, hd, hs]
      · simp [hs] at h4
    | null => simp [processLineA, h1, h2, hj, hd]
    | bool b => simp [processLineA, h1, h2, hj, hd]
    | num raw => simp [processLineA, h1, h2, hj, hd]
    | arr xs => simp [processLineA, h1, h2, hj, hd]
    | obj fs => simp [processLineA, h1, h2, hj, hd]

theorem processLine_eq_of_not_badShape (dv l : List Char) (h : badShape l = false) :
    processLineA dv l = processLineB dv l := by
  by_cases h1 : isDataLine l = true
  · by_cases h2 : dataOf l = chars "[DONE]"
    · simp [processLineA, processLineB, h1, h2]
    · cases hj : jsonParse (dataOf l) with
      | none => simp [processLineA, processLineB, h1, h2, hj]
      | some j =>
        have hext : (extractedDelta l).isSome = true := by
          simp only [badShape, h1, Bool.true_and, hj, Option.isSome_some,
            Bool.and_true] at h
          rcases Bool.and_eq_false_iff.mp h with hx | hx
          · rw [Bool.not_eq_false'] at hx
            exact absurd (beq_iff_eq.mp hx) h2
          · rw [Bool.not_eq_false'] at hx
            exact hx
        obtain ⟨s, hs⟩ := Option.isSome_iff_exists.mp hext
        simp only [extractedDelta, hj] at hs
        cases hd : deltaOf j with
        | none => rw [hd] at hs; simp at hs
        | some jd =>
          rw [hd] at hs
          cases jd with
          | str s2 =>
            by_cases hs2 : s2 = []
            · simp [hs2] at hs
            · simp [processLineA, processLineB, h1, h2, hj, hd, hs2, patched_eq]
          | null => simp at hs
          | bool b => simp at hs
          | num raw => simp at hs
          | arr xs => simp at hs
          | obj fs => simp at hs
  · have h1' : isDataLine l = false := by revert h1; cases isDataLine l <;> simp
    simp [processLineA, processLineB, h1']

theorem goodLine_not_badShape (l : List Char) (h : goodLine l = true) :
    badShape l = false := by
  simp only [goodLine, Bool.or_eq_true] at h
  rcases h with (h | h) | h
  · rw [Bool.not_eq_true'] at h
    simp [badShape, h]
  · simp [badShape, h]
  · simp [badShape, h]

theorem pipeline_getLast (f d : List Char → List (List Char)) (cs : List (List Char)) :
    (pipeline f d cs).getLast? = some doneFrame := by
  unfold pipeline
  exact List.getLast?_concat _

theorem count_done_flatMapB (dv : List Char) (ls : List (List Char)) :
    (ls.flatMap (processLineB dv)).count doneFrame =
      ls.countP (fun l => isDoneLine l) := by
  induction ls with
  | nil => simp
  | cons l ls ih =>
    rw [List.flatMap_cons, List.count_append, count_done_processLineB, ih,
      List.countP_cons]
    by_cases hD : isDoneLine l
    · simp [hD]
      omega
    · simp [hD]

theorem count_done_flatMapA (dv : List Char) (ls : List (List Char))
    (h : ∀ l ∈ ls, cleanLine l = true) :
    (ls.flatMap (processLineA dv)).count doneFrame =
      ls.countP (fun l => isDoneLine l) := by
  induction ls with
  | nil => simp
  | cons l ls ih =>
    rw [List.flatMap_cons, List.count_append,
      count_done_processLineA dv l (h l (List.mem_cons_self l ls)),
      ih fun x hx => h x (List.mem_cons_of_mem l hx), List.countP_cons]
    by_cases hD : isDoneLine l
    · simp [hD]
      omega
    · simp [hD]

theorem count_done_relayB (dv : List Char) (cs : List (List Char)) :
    (relayB dv cs).count doneFrame =
      (linesOf cs).countP (fun l => isDoneLine l) + 1 := by
  rw [relayB, pipeline_eq, List.count_append, List.count_append, count_done_drainB,
    count_done_flatMapB]
  simp [linesOf]

theorem count_done_relayA (dv : List Char) (cs : List (List Char))
    (h : ∀ l ∈ linesOf cs, cleanLine l = true) :
    (relayA dv cs).count doneFrame =
      (linesOf cs).countP (fun l => isDoneLine l) + 1 := by
  rw [relayA, pipeline_eq, List.count_append, List.count_append, count_done_drainA,
    count_done_flatMapA dv (lineSplit cs.flatten).1 (by simpa [linesOf] using h)]
  simp [linesOf]

theorem relay_eq_of_good (dv : List Char) (cs : List (List Char))
    (h : ∀ l ∈ linesOf cs, goodLine l = true) :
    relayA dv cs = relayB dv cs := by
  rw [relayA, relayB, pipeline_eq, pipeline_eq, drain_eq]
  have hfm : ((lineSplit cs.flatten).1).flatMap (processLineA dv) =
      ((lineSplit cs.flatten).1).flatMap (processLineB dv) :=
    List.flatMap_congr fun l hl =>
      processLine_eq_of_not_badShape dv l (goodLine_not_badShape l (h l hl))
  rw [hfm]

theorem pipeline_pair (f d : List Char → List (List Char)) (a b : List Char) :
    pipeline f d [a, b] = pipeline f d [a ++ b] := by
  rw [pipeline_flatten f d [a, b]]
  simp

theorem jsonParse_d_none (rest : List Char) : jsonParse ('d' :: rest) = none := rfl

theorem drain_data_nil (dv buf : List Char) (h : isDataLine buf = true) :
    drainA dv buf = [] ∧ drainB dv buf = [] := by
  cases buf with
  | nil => simp [isDataLine, chars, List.isPrefixOf] at h
  | cons c rest =>
    have hpre : chars "data:" = 'd' :: chars "ata:" := rfl
    rw [isDataLine, hpre] at h
    have hc : c = 'd' := by
      simp only [List.isPrefixOf, Bool.and_eq_true, beq_iff_eq] at h
      exact h.1.symm
    subst hc
    exact ⟨rfl, rfl⟩

/-- C1, corrected (counterexample): the claim "exactly one terminal sentinel
frame per completed relay run" fails on the code. When the upstream stream
sends an explicit newline-terminated `data: [DONE]` line, the loop forwards
it as a sentinel frame and the post-loop code unconditionally writes a
second one, so both variants emit two sentinel frames. -/
theorem c1_counterexample :
    (relayA (chars "29 September 2025") [chars "data: [DONE]\n"]).count doneFrame = 2 ∧
    (relayB (chars "29 September 2025") [chars "data: [DONE]\n"]).count doneFrame = 2 ∧
    relayA (chars "29 September 2025") [chars "data: [DONE]\n"] =
      [doneFrame, doneFrame] := by
  refine ⟨by decide, by decide, rfl⟩

/-- C1, amended: for every completed relay run the last outbound frame is
the terminal sentinel, and the number of sentinel frames is one more than
the number of explicit terminal-marker lines in the upstream stream — so it
is exactly one precisely when the upstream closes without sending a marker
line. The count holds unconditionally for `part_000`; for `chat.ts` it holds
for streams whose parseable data lines carry a non-empty string delta (its
forward-unchanged branch could otherwise emit a byte-identical frame). -/
theorem c1_amended (dv : List Char) (cs : List (List Char)) :
    (relayA dv cs).getLast? = some doneFrame ∧
    (relayB dv cs).getLast? = some doneFrame ∧
    (relayB dv cs).count doneFrame = (linesOf cs).countP (fun l => isDoneLine l) + 1 ∧
    ((∀ l ∈ linesOf cs, cleanLine l = true) →
      (relayA dv cs).count doneFrame =
        (linesOf cs).countP (fun l => isDoneLine l) + 1) :=
  ⟨pipeline_getLast _ _ cs, pipeline_getLast _ _ cs, count_done_relayB dv cs,
   fun h => count_done_relayA dv cs h⟩

/-- C1 witness: the amended count instantiated on a concrete stream with no
explicit terminal marker yields exactly one sentinel. -/
theorem c1_witness :
    (relayA (chars "X") [chars "data: hello\n"]).count doneFrame =
      (linesOf [chars "data: hello\n"]).countP (fun l => isDoneLine l) + 1 ∧
    (linesOf [chars "data: hello\n"]).countP (fun l => isDoneLine l) = 0 :=
  ⟨(c1_amended (chars "X") [chars "data: hello\n"]).2.2.2 (by decide), by decide⟩

/-- C2, confirmed: however a complete delta line carrying the placeholder
token is split into two successive chunks — in particular with the token
broken across the chunk boundary — both variants emit the single delta
frame with the token substituted by the resolved date, because parsing is
deferred until the full line is assembled in the buffer. -/
theorem c2_token_split (dv a b : List Char)
    (h : a ++ b =
      chars "data: \x7b\"choices\":[\x7b\"delta\":\x7b\"content\":\"book by [DATE_PLUS_7] now\"\x7d\x7d]\x7d\n") :
    relayA dv [a, b] =
      [deltaFrame (chars "book by " ++ dv ++ chars " now"), doneFrame] ∧
    relayB dv [a, b] =
      [deltaFrame (chars "book by " ++ dv ++ chars " now"), doneFrame] := by
  constructor
  · rw [relayA, pipeline_pair, h]
    rfl
  · rw [relayB, pipeline_pair, h]
    rfl

/-- C2 witness: the split of the spec's example, cutting the line inside
the token (`"...[DATE_PL" / "US_7]..."`). -/
theorem c2_witness :
    relayA (chars "29 September 2025")
        [chars "data: \x7b\"choices\":[\x7b\"delta\":\x7b\"content\":\"book by [DATE_PL",
         chars "US_7] now\"\x7d\x7d]\x7d\n"] =
      [deltaFrame (chars "book by " ++ chars "29 September 2025" ++ chars " now"),
       doneFrame] :=
  (c2_token_split (chars "29 September 2025") _ _ (by decide)).1

/-- C3, confirmed: for every extracted delta, the emitted text of both
variants equals the received text with every leftmost non-overlapping
occurrence of the placeholder token replaced by the resolved date and no
other characters altered: the canonical decomposition of the delta at the
token reassembles to the original with the token and to the emitted text
with the date, its segments are token-free, and a delta with no occurrence
is emitted verbatim. -/
theorem c3_substitution (dv s : List Char) :
    patchedSJ dv s = replaceAll dateToken dv s ∧
    patchedRA dv s = replaceAll dateToken dv s ∧
    joinSep dateToken (splitOnTok dateToken s) = s ∧
    (∀ seg ∈ splitOnTok dateToken s, hasSubstr dateToken seg = false) ∧
    replaceAll dateToken dv s = joinSep dv (splitOnTok dateToken s) ∧
    (hasSubstr dateToken s = false → patchedSJ dv s = s ∧ patchedRA dv s = s) := by
  refine ⟨?_, ?_, splitOnTok_join s, splitOnTok_segments s, replaceAll_eq_join dv s, ?_⟩
  · unfold patchedSJ
    by_cases h : hasSubstr dateToken s = true
    · rw [if_pos h, replaceAll_eq_join]
    · rw [if_neg h]
      exact (replaceAll_id_of_no_substr dv s (by revert h; cases hasSubstr dateToken s <;> simp)).symm
  · unfold patchedRA
    by_cases h : hasSubstr dateToken s = true
    · rw [if_pos h]
    · rw [if_neg h]
      exact (replaceAll_id_of_no_substr dv s (by revert h; cases hasSubstr dateToken s <;> simp)).symm
  · intro h
    exact ⟨by simp [patchedSJ, h], by simp [patchedRA, h]⟩

/-- C3 witness: the substitution facts instantiated on a delta with two
occurrences and on one with none. -/
theorem c3_witness :
    (∀ seg ∈ splitOnTok dateToken (chars "by [DATE_PLUS_7], yes [DATE_PLUS_7]!"),
      hasSubstr dateToken seg = false) ∧
    patchedSJ (chars "1 May 2026") (chars "by [DATE_PLUS_7], yes [DATE_PLUS_7]!") =
      replaceAll dateToken (chars "1 May 2026") (chars "by [DATE_PLUS_7], yes [DATE_PLUS_7]!") ∧
    (patchedSJ (chars "1 May 2026") (chars "no token here") = chars "no token here" ∧
     patchedRA (chars "1 May 2026") (chars "no token here") = chars "no token here") :=
  ⟨(c3_substitution (chars "1 May 2026") (chars "by [DATE_PLUS_7], yes [DATE_PLUS_7]!")).2.2.2.1,
   (c3_substitution (chars "1 May 2026") (chars "by [DATE_PLUS_7], yes [DATE_PLUS_7]!")).1,
   (c3_substitution (chars "1 May 2026") (chars "no token here")).2.2.2.2.2 (by decide)⟩

/-- C4, corrected (counterexample): the claim "a line that is neither the
terminal marker nor a well-formed JSON event with a non-empty string delta
produces no outbound frame" fails for `chat.ts`: the line `data: {}` parses
to JSON of an unrecognized shape, is neither the marker nor a delta carrier,
and is forwarded as one unchanged frame. -/
theorem c4_counterexample :
    relayA (chars "29 September 2025") [chars "data: \x7b\x7d\n"] =
      [sseFrame (chars "\x7b\x7d"), doneFrame] ∧
    isDoneLine (chars "data: \x7b\x7d") = false ∧
    extractedDelta (chars "data: \x7b\x7d") = none ∧
    relayB (chars "29 September 2025") [chars "data: \x7b\x7d\n"] = [doneFrame] :=
  ⟨rfl, rfl, rfl, rfl⟩

/-- C4, amended: a non-marker line without `data:` framing or whose payload
is invalid JSON produces no frame in either variant; in `part_000` any
non-marker line without a non-empty string delta produces no frame; in
`chat.ts` a parseable payload without such a delta is instead forwarded as
one unchanged frame (see the C10 theorem). In every skipped case the frames
of the other lines of the stream are unchanged and stay in order. -/
theorem c4_amended (dv l : List Char) (pre post : List (List Char))
    (hmark : isDoneLine l = false) :
    ((isDataLine l = false ∨ jsonParse (dataOf l) = none) →
      processLineA dv l = [] ∧ processLineB dv l = [] ∧
      (pre ++ l :: post).flatMap (processLineA dv) =
        (pre ++ post).flatMap (processLineA dv) ∧
      (pre ++ l :: post).flatMap (processLineB dv) =
        (pre ++ post).flatMap (processLineB dv)) ∧
    (extractedDelta l = none →
      processLineB dv l = [] ∧
      (pre ++ l :: post).flatMap (processLineB dv) =
        (pre ++ post).flatMap (processLineB dv)) := by
  have ins : ∀ (f : List Char → List (List Char)), f l = [] →
      (pre ++ l :: post).flatMap f = (pre ++ post).flatMap f := by
    intro f hf
    simp [List.flatMap_append, List.flatMap_cons, hf]
  constructor
  · intro h
    obtain ⟨hA, hB⟩ := processLine_skip dv l hmark h
    exact ⟨hA, hB, ins _ hA, ins _ hB⟩
  · intro h
    have hB := processLineB_drop dv l hmark h
    exact ⟨hB, ins _ hB⟩

/-- C4 witness: the amended statement applied to a line without SSE framing
and to a `data:` line of parseable but unrecognized shape. -/
theorem c4_witness :
    processLineA (chars "X") (chars "event: ping") = [] ∧
    processLineB (chars "X") (chars "event: ping") = [] ∧
    ((chars "a") :: chars "event: ping" :: [chars "b"]).flatMap (processLineA (chars "X")) =
      ((chars "a") :: [chars "b"]).flatMap (processLineA (chars "X")) ∧
    processLineB (chars "X") (chars "data: \x7b\x7d") = [] := by
  have h1 := (c4_amended (chars "X") (chars "event: ping") [chars "a"] [chars "b"]
    (by decide)).1 (Or.inl (by decide))
  have h2 := (c4_amended (chars "X") (chars "data: \x7b\x7d") [] []
    (by decide)).2 (by decide)
  exact ⟨h1.1, h1.2.1, h1.2.2.1, h2.1⟩

/-- C5, confirmed: whenever either variant proceeds to the upstream call,
the message list of the upstream payload is exactly the fixed system
instruction turn followed by the caller's turns, verbatim and in order. -/
theorem c5_system_first (msgs : List Json) (model : Json) (ms : List Json) :
    (dispatchA msgs model = Outcome.callUpstream model ms →
      ms = systemTurnA :: msgs) ∧
    (dispatchB msgs model = Outcome.callUpstream model ms →
      ms = systemTurnB :: msgs) := by
  constructor
  · intro h
    unfold dispatchA at h
    cases htc : testedContent msgs with
    | none =>
      simp only [htc] at h
      exact Outcome.noConfusion h
    | some last =>
      simp only [htc] at h
      by_cases hsc : (reTest faqTimePatsA last || reTest faqCostPatsA last) = true
      · rw [if_pos hsc] at h
        exact absurd h (by simp)
      · rw [if_neg hsc] at h
        injection h with h1 h2
        exact h2.symm
  · intro h
    unfold dispatchB at h
    cases htc : testedContent msgs with
    | none =>
      simp only [htc] at h
      exact Outcome.noConfusion h
    | some last =>
      simp only [htc] at h
      by_cases hsc :
          (reTest faqTimePatsB last || reTest faqCostPatsB last ||
            reTest faqVisPatsB last) = true
      · rw [if_pos hsc] at h
        exact absurd h (by simp)
      · rw [if_neg hsc] at h
        injection h with h1 h2
        exact h2.symm

/-- C5 witness: on a concrete non-FAQ message both variants call upstream
with the system turn prepended to the caller's single turn. -/
theorem c5_witness :
    systemTurnA ::
        [Json.obj [(chars "role", Json.str (chars "user")),
                   (chars "content", Json.str (chars "hello there"))]] =
      systemTurnA ::
        [Json.obj [(chars "role", Json.str (chars "user")),
                   (chars "content", Json.str (chars "hello there"))]] ∧
    systemTurnB ::
        [Json.obj [(chars "role", Json.str (chars "user")),
                   (chars "content", Json.str (chars "hello there"))]] =
      systemTurnB ::
        [Json.obj [(chars "role", Json.str (chars "user")),
                   (chars "content", Json.str (chars "hello there"))]] :=
  ⟨(c5_system_first
      [Json.obj [(chars "role", Json.str (chars "user")),
                 (chars "content", Json.str (chars "hello there"))]]
      defaultModel _).1 rfl,
   (c5_system_first
      [Json.obj [(chars "role", Json.str (chars "user")),
                 (chars "content", Json.str (chars "hello there"))]]
      defaultModel _).2 rfl⟩

/-- C6, corrected (counterexample): the claim "a last message matching the
cost pattern yields the canned cost answer" fails when the message also
matches the time pattern, which both variants check first: this message
contains `pricing` (cost pattern matches) yet the emitted delta carries the
time answer, which differs from the cost answer. -/
theorem c6_counterexample :
    dispatchA
        [Json.obj [(chars "role", Json.str (chars "user")),
                   (chars "content",
                    Json.str (chars "How long will it take, and what is the pricing?"))]]
        defaultModel =
      Outcome.shortcut [deltaFrame timeTextA, doneFrame] ∧
    reTest faqCostPatsA
        (jsLower (chars "How long will it take, and what is the pricing?")) = true ∧
    deltaFrame timeTextA ≠ deltaFrame costTextA ∧
    dispatchB
        [Json.obj [(chars "role", Json.str (chars "user")),
                   (chars "content",
                    Json.str (chars "How long will it take, and what is the pricing?"))]]
        defaultModel =
      Outcome.shortcut [deltaFrame timeTextB, doneFrame] ∧
    deltaFrame timeTextB ≠ deltaFrame costTextB :=
  ⟨rfl, by decide, by decide, rfl, by decide⟩

/-- C6, amended: for every request whose inspected content matches the cost
pattern and not the (higher-priority) time pattern, each variant emits
exactly one delta frame carrying its canned cost answer followed by the
terminal sentinel, and does not call the upstream API (the `shortcut`
outcome makes no upstream call by construction). -/
theorem c6_amended (msgs : List Json) (model : Json) (last : List Char)
    (h : testedContent msgs = some last) :
    (reTest faqCostPatsA last = true → reTest faqTimePatsA last = false →
      dispatchA msgs model = Outcome.shortcut [deltaFrame costTextA, doneFrame]) ∧
    (reTest faqCostPatsB last = true → reTest faqTimePatsB last = false →
      dispatchB msgs model = Outcome.shortcut [deltaFrame costTextB, doneFrame]) := by
  constructor
  · intro hc ht
    unfold dispatchA
    simp only [h, ht, hc, Bool.false_or, if_true, Bool.false_eq_true, if_false]
  · intro hc ht
    unfold dispatchB
    simp only [h, ht, hc, Bool.false_or, Bool.true_or, if_true, Bool.false_eq_true,
      if_false]

/-- C6 witness: a pure cost question triggers the cost shortcut in both
variants. -/
theorem c6_witness :
    dispatchA
        [Json.obj [(chars "role", Json.str (chars "user")),
                   (chars "content", Json.str (chars "what is the pricing"))]]
        defaultModel =
      Outcome.shortcut [deltaFrame costTextA, doneFrame] ∧
    dispatchB
        [Json.obj [(chars "role", Json.str (chars "user")),
                   (chars "content", Json.str (chars "what is the pricing"))]]
        defaultModel =
      Outcome.shortcut [deltaFrame costTextB, doneFrame] :=
  ⟨(c6_amended
      [Json.obj [(chars "role", Json.str (chars "user")),
                 (chars "content", Json.str (chars "what is the pricing"))]]
      defaultModel (chars "what is the pricing") rfl).1 (by decide) (by decide),
   (c6_amended
      [Json.obj [(chars "role", Json.str (chars "user")),
                 (chars "content", Json.str (chars "what is the pricing"))]]
      defaultModel (chars "what is the pricing") rfl).2 (by decide) (by decide)⟩

/-- C7, corrected (counterexample): the shortcut responder does not inspect
the most recent *user* turn — it inspects the last entry regardless of role.
Here the latest user turn contains `pricing` (and alone would trigger the
cost shortcut), but a trailing assistant turn is what gets tested, so both
variants fall through to the upstream call. -/
theorem c7_counterexample :
    dispatchA
        [Json.obj [(chars "role", Json.str (chars "user")),
                   (chars "content", Json.str (chars "what is your pricing"))],
         Json.obj [(chars "role", Json.str (chars "assistant")),
                   (chars "content", Json.str (chars "happy to help with that"))]]
        defaultModel =
      Outcome.callUpstream defaultModel
        (systemTurnA ::
          [Json.obj [(chars "role", Json.str (chars "user")),
                     (chars "content", Json.str (chars "what is your pricing"))],
           Json.obj [(chars "role", Json.str (chars "assistant")),
                     (chars "content", Json.str (chars "happy to help with that"))]]) ∧
    shortcutResultA
        [Json.obj [(chars "role", Json.str (chars "user")),
                   (chars "content", Json.str (chars "what is your pricing"))]] =
      some [deltaFrame costTextA, doneFrame] ∧
    hasSubstr (chars "pricing") (jsLower (chars "what is your pricing")) = true ∧
    shortcutResultB
        [Json.obj [(chars "role", Json.str (chars "user")),
                   (chars "content", Json.str (chars "what is your pricing"))],
         Json.obj [(chars "role", Json.str (chars "assistant")),
                   (chars "content", Json.str (chars "happy to help with that"))]] =
      none :=
  ⟨rfl, rfl, by decide, rfl⟩

/-- C7, amended: the content the shortcut responder tests is that of the
last entry of the message list regardless of its role: the shortcut
decision and frames on any list ending in turn `t` coincide with those on
the singleton `[t]`, whatever precedes it. -/
theorem c7_amended (msgs : List Json) (t : Json) :
    shortcutResultA (msgs ++ [t]) = shortcutResultA [t] ∧
    shortcutResultB (msgs ++ [t]) = shortcutResultB [t] := by
  have htc : testedContent (msgs ++ [t]) = testedContent [t] := by
    unfold testedContent
    rw [List.getLast?_concat]
    rfl
  constructor
  · unfold shortcutResultA dispatchA
    rw [htc]
    cases htc2 : testedContent [t] with
    | none => rfl
    | some last =>
      by_cases hsc : (reTest faqTimePatsA last || reTest faqCostPatsA last) = true
      · simp [hsc]
      · simp [hsc]
  · unfold shortcutResultB dispatchB
    rw [htc]
    cases htc2 : testedContent [t] with
    | none => rfl
    | some last =>
      by_cases hsc :
          (reTest faqTimePatsB last || reTest faqCostPatsB last ||
            reTest faqVisPatsB last) = true
      · simp [hsc]
      · simp [hsc]

/-- C8, confirmed: with the method POST and the credential configured, a
body that fails to parse is handled exactly like one parsed as the empty
object: the handler proceeds (no error stage) with an empty message list
and the fixed default model identifier. -/
theorem c8_parse_degradation :
    handlerIntake (chars "POST") true none = HandlerStage.proceed [] defaultModel ∧
    handlerIntake (chars "POST") true none =
      handlerIntake (chars "POST") true (some (Json.obj [])) :=
  ⟨rfl, rfl⟩

/-- C9, confirmed: the drain step parses the residual buffer directly as
JSON, so any leftover starting with `data:` (whose payload `JSON.parse`
rejects at the leading `d`) produces no frame in either variant — in
particular an unterminated final `data:` delta line or `data: [DONE]`
marker is silently dropped, while a bare-JSON residual with a non-empty
string delta is emitted; the closing sentinel is written regardless. -/
theorem c9_drain_behavior (dv buf : List Char) :
    (isDataLine buf = true → drainA dv buf = [] ∧ drainB dv buf = []) ∧
    relayA dv [chars "data: \x7b\"delta\":\"hi\"\x7d\n", chars "data: [DONE]"] =
      [deltaFrame (chars "hi"), doneFrame] ∧
    relayA dv [chars "data: \x7b\"delta\":\"hi\"\x7d"] = [doneFrame] ∧
    relayA dv [chars "\x7b\"delta\":\"hi\"\x7d"] =
      [deltaFrame (chars "hi"), doneFrame] ∧
    relayB dv [chars "data: \x7b\"delta\":\"hi\"\x7d\n", chars "data: [DONE]"] =
      [deltaFrame (chars "hi"), doneFrame] :=
  ⟨drain_data_nil dv buf, rfl, rfl, rfl, rfl⟩

/-- C9 witness: the drain facts applied to the concrete unterminated
terminal-marker residue. -/
theorem c9_witness :
    drainA (chars "X") (chars "data: [DONE]") = [] ∧
    drainB (chars "X") (chars "data: [DONE]") = [] :=
  (c9_drain_behavior (chars "X") (chars "data: [DONE]")).1 (by decide)

/-- C10, confirmed: with the resolved date held equal, the two variants
emit identical frame sequences on any upstream stream whose complete
`data:` lines are each the terminal marker or JSON carrying a non-empty
string delta; per line they diverge exactly on a parseable payload with
neither delta shape, which `chat.ts` forwards as one unchanged frame and
`part_000` omits. -/
theorem c10_variant_equivalence (dv : List Char) (cs : List (List Char))
    (l : List Char) :
    ((∀ x ∈ linesOf cs, goodLine x = true) → relayA dv cs = relayB dv cs) ∧
    (badShape l = false → processLineA dv l = processLineB dv l) ∧
    (badShape l = true →
      processLineA dv l ≠ processLineB dv l ∧
      ∃ j, jsonParse (dataOf l) = some j ∧ processLineA dv l = [sseAny j] ∧
        processLineB dv l = []) := by
  refine ⟨relay_eq_of_good dv cs, processLine_eq_of_not_badShape dv l, ?_⟩
  intro h
  obtain ⟨j, hj, hA, hB⟩ := processLine_badShape dv l h
  refine ⟨?_, j, hj, hA, hB⟩
  rw [hA, hB]
  simp

/-- C10 witness: stream-level equality on a concrete well-shaped stream and
the per-line divergence at the concrete unrecognized-shape line `data: {}`. -/
theorem c10_witness :
    relayA (chars "X")
        [chars "data: \x7b\"delta\":\"hi\"\x7d\n", chars "data: [DONE]\n"] =
      relayB (chars "X")
        [chars "data: \x7b\"delta\":\"hi\"\x7d\n", chars "data: [DONE]\n"] ∧
    processLineA (chars "X") (chars "data: \x7b\x7d") ≠
      processLineB (chars "X") (chars "data: \x7b\x7d") :=
  ⟨(c10_variant_equivalence (chars "X")
      [chars "data: \x7b\"delta\":\"hi\"\x7d\n", chars "data: [DONE]\n"]
      (chars "data: \x7b\x7d")).1 (by decide),
   ((c10_variant_equivalence (chars "X")
      [chars "data: \x7b\"delta\":\"hi\"\x7d\n", chars "data: [DONE]\n"]
      (chars "data: \x7b\x7d")).2.2 (by decide)).1⟩

end Cloud29
